import Mathlib


/- Verification of the completion orchestration engine of the ai-chat
   VSCode extension: the continuation repair of truncated fenced blocks,
   the tool registry and executor, the bounded tool orchestration loop,
   the message assembler, and the streaming response handler.

   JavaScript strings are modelled as lists of characters so that every
   definition evaluates inside the kernel; the string operations the
   sources use (split, trim, startsWith) are re-implemented below with
   the semantics of their JavaScript counterparts (trim is restricted to
   ASCII whitespace, which is the only whitespace the claims exercise). -/


/-- Text as the JavaScript runtime sees it: a list of characters. -/
abbrev Str := List Char

/-- JavaScript String.prototype.split with the one-character separator
used by the sources, a newline. -/
def splitOnNewline : Str → List Str
  | [] => [[]]
  | c :: rest =>
    match splitOnNewline rest with
    | [] => [[c]]
    | l :: ls => if c = '\n' then [] :: l :: ls else (c :: l) :: ls

/-- JavaScript String.prototype.trim on ASCII whitespace. -/
def trimStr (s : Str) : Str :=
  ((s.dropWhile Char.isWhitespace).reverse.dropWhile Char.isWhitespace).reverse

/-- The fenced code block marker scanned for by part_000. -/
def fence : Str := "```".data

/-- JavaScript String.prototype.startsWith. -/
def startsWithStr (p s : Str) : Bool := List.isPrefixOf p s

/-- Scan state returned by getMarkdownState (src/unnamed/part_000). -/
structure MarkdownState where
  inCodeBlock : Bool
  openCodeBlocks : Int
  deriving Repr, DecidableEq

/-- Embedding of the loop body of getMarkdownState: a line whose trimmed
form starts with the fence marker toggles the flag and adjusts the count
of open blocks; every other line leaves the state unchanged. -/
def markdownStep (st : MarkdownState) (line : Str) : MarkdownState :=
  if startsWithStr fence (trimStr line) then
    if !st.inCodeBlock then
      { inCodeBlock := true, openCodeBlocks := st.openCodeBlocks + 1 }
    else
      { inCodeBlock := false, openCodeBlocks := st.openCodeBlocks - 1 }
  else st

/-- Embedding of getMarkdownState (src/unnamed/part_000, lines 6 to 29). -/
def getMarkdownState (content : Str) : MarkdownState :=
  (splitOnNewline content).foldl markdownStep
    { inCodeBlock := false, openCodeBlocks := 0 }

/-- Embedding of getContinuationContent (src/unnamed/part_000, lines 31
to 44): when the buffered partial message ends inside an open fenced
block and the trimmed new content starts with a fence, a closing fence is
inserted in front of the new content. -/
def getContinuationContent (partialMessage newContent : Str) : Str :=
  let state := getMarkdownState partialMessage
  if state.inCodeBlock && startsWithStr fence (trimStr newContent) then
    "\n```\n".data ++ newContent
  else
    newContent

/-- Claim-side detector for C3, built from the words of the claim alone:
lines whose trimmed form starts with the fence marker toggle an
inside-block flag, and the text ends inside an open block when the flag
ends true. -/
def endsInsideOpenFence (s : Str) : Bool :=
  (splitOnNewline s).foldl
    (fun flag line => if startsWithStr fence (trimStr line) then !flag else flag)
    false

/-- Roles of the internal and wire message representations. -/
inductive Role
  | user
  | assistant
  | system
  | tool
  deriving Repr, DecidableEq

/-- Internal message representation (src/src/types.ts): the id is the
string produced by Date.now().toString(), opaque to every claim here. -/
structure Message where
  id : Str
  role : Role
  content : Str
  deriving Repr, DecidableEq

/-- Stand-in for Date.now().toString(): the sources only ever store this
id, never branch on it, so a fixed value is faithful for the claims. -/
def dateNowId : Str := "0".data

/-- A tool call request produced by the model (src/src/types.ts):
function name plus the raw JSON text of the arguments. -/
structure ToolCall where
  id : Str
  name : Str
  arguments : Str
  deriving Repr, DecidableEq

/-- A tool result as returned by the executor. -/
structure ToolResult where
  tool_call_id : Str
  content : Str
  deriving Repr, DecidableEq

/-- Provider wire message, the shape pushed onto the list sent to the
model: toOpenAIMessage and toGroqMessage (src/src/utils/message.ts) both
copy role and content and drop the id, and the orchestration loop pushes
assistant messages carrying tool calls and tool messages carrying a
tool_call_id (src/src/extension/modules/chat-completion.ts, lines
158 to 171). -/
structure AIMessage where
  role : Role
  content : Option Str
  tool_calls : List ToolCall := []
  tool_call_id : Option Str := none
  deriving Repr, DecidableEq

/-- Embedding of toOpenAIMessage and toGroqMessage
(src/src/utils/message.ts): both conversions clone the message and drop
the id, so convertMessage (src/src/extension/modules/chat-completion.ts,
lines 17 to 23) produces the same wire shape for either provider. -/
def convertMessage (m : Message) : AIMessage :=
  { role := m.role, content := some m.content }

/-- Result payload of a tool handler: the source contract is
execute(args, context) resolving with an output field; a rejection is
modelled as Except.error carrying the error message. -/
structure ToolOutput where
  output : Str
  deriving Repr, DecidableEq

/-- A registered tool as the executor sees it (src/unnamed/part_013):
only the execute field is observed by executeToolCall. The parsed
argument payload has an arbitrary type, standing for the untyped value
JSON.parse returns. -/
structure ToolInfo (Arg : Type) where
  execute : Arg → Except Str ToolOutput

/-- Embedding of ToolExecutor.executeToolCall (src/unnamed/part_013,
lines 107 to 140): an unregistered name returns an unknown-tool result,
a handler rejection is caught and encoded as error text, and in every
case a ToolResult carrying the given id is returned, so the function is
total with respect to its caller. -/
def executeToolCall {Arg : Type} (toolMap : Str → Option (ToolInfo Arg))
    (toolCallId functionName : Str) (args : Arg) : ToolResult :=
  match toolMap functionName with
  | none =>
    { tool_call_id := toolCallId, content := "Unknown tool: ".data ++ functionName }
  | some tool =>
    match tool.execute args with
    | Except.ok result => { tool_call_id := toolCallId, content := result.output }
    | Except.error e => { tool_call_id := toolCallId, content := "Error: ".data ++ e }

/-- Embedding of one iteration of the executeTools loop
(src/src/extension/modules/chat-completion.ts, lines 212 to 251): the
raw argument text is parsed (parseJson stands for JSON.parse, returning
the parsed value or the text of the thrown parse error), a parse failure
is caught and encoded as error text on the result, and otherwise the
executor is invoked. -/
def executeToolsStep {Arg : Type} (parseJson : Str → Except Str Arg)
    (toolMap : Str → Option (ToolInfo Arg)) (tool : ToolCall) : ToolResult :=
  match parseJson tool.arguments with
  | Except.error e =>
    { tool_call_id := tool.id, content := "Error parsing arguments: ".data ++ e }
  | Except.ok args => executeToolCall toolMap tool.id tool.name args

/-- Embedding of executeTools (src/src/extension/modules/
chat-completion.ts, lines 206 to 255): the requested calls are executed
sequentially, in the order the model emitted them, and one result is
pushed per call. -/
def executeTools {Arg : Type} (parseJson : Str → Except Str Arg)
    (toolMap : Str → Option (ToolInfo Arg)) (tools : List ToolCall) :
    List ToolResult :=
  tools.map (executeToolsStep parseJson toolMap)

/-- Names of the tool calls whose execution is started by the
executeTools loop, given that the cancellation signal is observed as
aborted n just before the n-th execution of the iteration. The source
loop (src/src/extension/modules/chat-completion.ts, lines 212 to 252)
never consults the signal between executions, it only hands it to the
executor as context, so every requested call is started no matter when
the signal fires; the schedule argument is therefore unused, which is
exactly the content of claim C8. -/
def startedToolCalls (_aborted : Nat → Bool) (tools : List ToolCall) : List Str :=
  tools.map ToolCall.name

/-- Demonstration JSON parser for the witnesses: accepts only the empty
object text and otherwise reports the text of the thrown parse error. -/
def demoParse : Str → Except Str Unit := fun s =>
  if s = "\x7b\x7d".data then Except.ok () else Except.error "Unexpected token".data

/-- Demonstration registry for the witnesses: no tool is registered. -/
def demoEmptyMap : Str → Option (ToolInfo Unit) := fun _ => none

/-- A tool-phase model response: the message content and the tool calls
it requests, which is all of choices[0].message that createCompletion
reads. -/
structure ToolRound where
  content : Option Str
  toolCalls : List ToolCall
  deriving Repr, DecidableEq

/-- Counters and final message list of one createCompletion run:
toolPhaseCalls counts the non-streaming model requests made by the tool
loop and streamCalls counts final streaming requests. No error path
exists in the model because the only throw sites of the source
(provider and network failures) are environment failures the claims do
not exercise; in particular iteration exhaustion only logs a warning and
falls through to the streaming request. -/
structure CompletionTrace where
  toolPhaseCalls : Nat
  streamCalls : Nat
  messages : List AIMessage
  deriving Repr, DecidableEq

/-- Embedding of the while loop of createCompletion
(src/src/extension/modules/chat-completion.ts, lines 119 to 185) and of
the final streaming call after it (lines 193 to 200). The fuel argument
is maxIterations minus iterationCount, the index i is iterationCount,
responses i is the model response to the i-th tool-phase request, and
aborted i tells whether the cancellation signal is observed at the check
that closes the i-th iteration. When the loop condition fails or a
response carries no tool calls, control falls through to the single
streaming request; when the post-iteration check observes the signal,
createCompletion returns without any further request. -/
def toolLoop {Arg : Type} (parseJson : Str → Except Str Arg)
    (toolMap : Str → Option (ToolInfo Arg)) (responses : Nat → ToolRound)
    (aborted : Nat → Bool) :
    Nat → Nat → List AIMessage → CompletionTrace
  | 0, _, messages =>
    { toolPhaseCalls := 0, streamCalls := 1, messages := messages }
  | fuel + 1, i, messages =>
    let response := responses i
    if response.toolCalls.isEmpty then
      { toolPhaseCalls := 1, streamCalls := 1, messages := messages }
    else
      let results := executeTools parseJson toolMap response.toolCalls
      let messages2 := messages ++
        ({ role := Role.assistant, content := response.content,
           tool_calls := response.toolCalls } ::
          results.map fun r =>
            { role := Role.tool, content := some r.content,
              tool_call_id := some r.tool_call_id })
      if aborted i then
        { toolPhaseCalls := 1, streamCalls := 0, messages := messages2 }
      else
        let rest :=
          toolLoop parseJson toolMap responses aborted fuel (i + 1) messages2
        { rest with toolPhaseCalls := rest.toolPhaseCalls + 1 }

/-- The iteration bound of the tool loop
(src/src/extension/modules/chat-completion.ts, line 123). -/
def maxIterations : Nat := 10

/-- Embedding of createCompletion (src/src/extension/modules/
chat-completion.ts, lines 107 to 204): when tools are enabled the
bounded tool loop runs first, otherwise control goes directly to the
single streaming request. -/
def createCompletionTrace {Arg : Type} (parseJson : Str → Except Str Arg)
    (toolMap : Str → Option (ToolInfo Arg)) (useTools : Bool)
    (responses : Nat → ToolRound) (aborted : Nat → Bool)
    (messages : List AIMessage) : CompletionTrace :=
  if useTools then
    toolLoop parseJson toolMap responses aborted maxIterations 0 messages
  else
    { toolPhaseCalls := 0, streamCalls := 1, messages := messages }

/-- A concrete tool request for the witnesses and counterexamples. -/
def demoCall : ToolCall :=
  { id := "c1".data, name := "read_file".data, arguments := "\x7b\x7d".data }

/-- A second concrete tool request. -/
def demoCallB : ToolCall :=
  { id := "c2".data, name := "grep".data, arguments := "\x7b\x7d".data }

/-- A model that requests one tool call on every round. -/
def demoResponses : Nat → ToolRound :=
  fun _ => { content := none, toolCalls := [demoCall] }

/-- JavaScript array.slice(-n): the last n elements, except that
slice(-0) is the whole array, which matters because the history limit is
a configuration value. -/
def sliceLast {α : Type} (n : Nat) (xs : List α) : List α :=
  if n = 0 then xs else xs.drop (xs.length - n)

/-- Base system prompt of prompts/system.ts
(src/src/extension/prompts/system.ts). -/
def basePrompt : Str :=
  ("You are an AI assistant specialized in software development and code analysis.\n\nWhen working with files and code:\n- Use the available tools to gather context and make changes\n- Read files to understand existing code structure before making modifications\n- Use search tools to find patterns, functions, or specific code elements\n- Always provide clear explanations of what you\x27re doing and why\n\nFor code-related tasks:\n- Prioritize clean, maintainable, and well-structured code\n- Follow best practices and established patterns\n- Include proper error handling where appropriate\n- Use meaningful variable names and comments for complex logic\n\nAlways deliver clear, concise, and practical solutions.").data

/-- Tool section appended by prompts/system.ts when tools are enabled. -/
def toolsSection : Str :=
  ("\n\nAvailable tools:\n- **read_file**: Read file contents with line range support\n- **write_file**: Write content to files with automatic directory creation\n- **grep**: Search for patterns in files using regex\n- **list_dir**: List directory contents and structure\n- **find_related**: Find files related to current context\n\nTool usage guidelines:\n- Use read_file to examine existing code structure and understand context\n- Use search tools to find specific functions, patterns, or implementations\n- Use write_file to create new files or completely replace existing ones\n- Always gather sufficient context before making changes").data

/-- Embedding of prompts.system (src/src/extension/prompts/system.ts) as
called by prepareMessages with only the toolsEnabled option, so the
category section is empty. -/
def systemPromptText (toolsEnabled : Bool) : Str :=
  if toolsEnabled then basePrompt ++ toolsSection else basePrompt

/-- Embedding of prompts.fileContext (src/unnamed/part_001, lines 9 to
33) as called by prepareMessages, with no language and no line
numbers. -/
def fileContextPrompt (fileName content : Str) : Str :=
  "\nFile: ".data ++ fileName ++ "\n```\n".data ++ content ++ "\n```".data

/-- Synthetic user message wrapping the content of one file, as built by
prepareMessages (src/src/extension/modules/chat-completion.ts, lines 52
to 59 and 81 to 88). -/
def fileContextMessage (fileName content : Str) : AIMessage :=
  convertMessage
    { id := dateNowId, role := Role.user,
      content := fileContextPrompt fileName content }

/-- The system message prepended last by prepareMessages
(src/src/extension/modules/chat-completion.ts, lines 96 to 102). -/
def systemMessage (toolsEnabled : Bool) : AIMessage :=
  convertMessage
    { id := dateNowId, role := Role.system,
      content := systemPromptText toolsEnabled }

/-- Name of the auto-loaded static project context document. -/
def projectMdName : Str := "project.md".data

/-- An attached file at assembly time: its name and the outcome of
reading it (vscode.workspace.fs.readFile resolving with the content or
rejecting with an error). -/
structure AttachedFileRead where
  name : Str
  read : Except Str Str
  deriving Repr

/-- Outcome of awaiting Promise.all over the attached file reads: the
content of every file, or the first rejection. A single rejection makes
the whole await throw. -/
def readAll : List AttachedFileRead → Except Str (List (Str × Str))
  | [] => Except.ok []
  | f :: rest =>
    match f.read with
    | Except.error e => Except.error e
    | Except.ok c =>
      match readAll rest with
      | Except.error e => Except.error e
      | Except.ok others => Except.ok ((f.name, c) :: others)

/-- The project context message, present only when project.md exists and
its read succeeds; a failed read is caught (the try block of lines 44 to
72 of src/src/extension/modules/chat-completion.ts) and merely skips the
message. -/
def projectContextList : Option (Except Str Str) → List AIMessage
  | some (Except.ok content) => [fileContextMessage projectMdName content]
  | _ => []

/-- Embedding of prepareMessages (src/src/extension/modules/
chat-completion.ts, lines 25 to 105). In source order: the trimmed
history is converted; the project.md context is unshifted when readable;
every attached file read unshifts a context message, one failed read
rejecting the whole Promise.all and hence the whole function; the system
message is unshifted last. The projectMd argument is none when the file
does not exist. -/
def prepareMessagesModules (toolsEnabled : Bool) (historyLimit : Nat)
    (history : List Message) (projectMd : Option (Except Str Str))
    (files : List AttachedFileRead) : Except Str (List AIMessage) :=
  let base := (sliceLast historyLimit history).map convertMessage
  let withProject := projectContextList projectMd ++ base
  match readAll files with
  | Except.error e => Except.error e
  | Except.ok contents =>
    Except.ok (systemMessage toolsEnabled ::
      contents.foldl (fun acc fc => fileContextMessage fc.1 fc.2 :: acc)
        withProject)

/-- A history message for the concrete counterexamples. -/
def demoHistoryMsg : Message :=
  { id := dateNowId, role := Role.user, content := "hi".data }

/-- Name of the attached file in the concrete counterexamples. -/
def demoFileName : Str := "a.txt".data

/-- Content of the attached file in the concrete counterexamples. -/
def demoFileContent : Str := "A".data

/-- Content of project.md in the concrete counterexamples. -/
def demoProjectContent : Str := "proj".data

/-- Terminal reason of one stream chunk as the handler reads it: stop,
length, or any other value. -/
inductive FinishReason
  | stop
  | length
  | other
  deriving Repr, DecidableEq

/-- One streaming chunk: the delta text (empty when the delta carries no
content) and the finish_reason field, none when null. -/
structure StreamChunk where
  text : Str
  finish : Option FinishReason := none
  deriving Repr, DecidableEq

/-- Events the stream handler posts to the webview. -/
inductive StreamEvent
  | startAssistantMessage
  | appendChunk (text : Str)
  | endAssistantMessage
  | apiError
  deriving Repr, DecidableEq

/-- Outcome of one round of the continuation-aware stream handler of
part_006: the posted events, each tagged with the number of chunks fully
processed when it was posted, the final continuation buffer, the
assistant message pushed to history when the round completed, and
whether createCompletion was re-invoked for a continuation round.
apiError never appears on the modelled paths because the only throw site
is the cancellation throw, and the catch block skips handleError when
the signal is aborted (src/unnamed/part_006, lines 779 to 785). -/
structure StreamOutcome where
  events : List (Nat × StreamEvent)
  partialMessage : Str
  historyAppend : Option Message
  reinvoked : Bool
  deriving Repr, DecidableEq

/-- Whether the single-use cancellation handle, signaled just after k
chunks of the round were fully processed, is observed as aborted at the
check that precedes processing chunk i. -/
def abortSignaled : Option Nat → Nat → Bool
  | none, _ => false
  | some k, i => decide (k ≤ i)

/-- Embedding of the for-await loop of handleStream
(src/unnamed/part_006, lines 740 to 765) together with its epilogue
(lines 767 to 778) and the cancellation catch (lines 779 to 785).
Arguments after the schedule and the initial buffer: the chunks still to
process, the index of the next chunk, the accumulated reply, the
first-chunk-of-continuation flag, and the current value of the mutable
partialMessage field. An observed signal throws; the catch clears the
buffer, posts endAssistantMessage and, the signal being aborted, does
not call handleError. After the loop an empty buffer means the round is
complete (endAssistantMessage plus a history push), a nonempty one means
createCompletion is re-invoked. -/
def streamGo (abortFrom : Option Nat) (partialMessage0 : Str) :
    List StreamChunk → Nat → Str → Bool → Str → StreamOutcome
  | [], i, reply, _isFirst, pm =>
    if pm.isEmpty then
      { events := [(i, StreamEvent.endAssistantMessage)],
        partialMessage := pm,
        historyAppend :=
          some { id := dateNowId, role := Role.assistant, content := reply },
        reinvoked := false }
    else
      { events := [], partialMessage := pm, historyAppend := none,
        reinvoked := true }
  | chunk :: rest, i, reply, isFirst, pm =>
    if abortSignaled abortFrom i then
      { events := [(i, StreamEvent.endAssistantMessage)], partialMessage := [],
        historyAppend := none, reinvoked := false }
    else
      let processed :=
        if isFirst && !partialMessage0.isEmpty then
          getContinuationContent partialMessage0 chunk.text
        else chunk.text
      let reply2 := reply ++ processed
      let pm2 :=
        match chunk.finish with
        | some FinishReason.length => reply2
        | some FinishReason.stop => []
        | _ => pm
      let tail := streamGo abortFrom partialMessage0 rest (i + 1) reply2 false pm2
      { tail with
        events := (i, StreamEvent.appendChunk processed) :: tail.events }

/-- Embedding of handleStream (src/unnamed/part_006, lines 719 to 786):
the reply accumulator starts from the continuation buffer, the
first-chunk flag is set exactly when the buffer is nonempty, and a
startAssistantMessage event is posted first only when the round is not a
continuation. -/
def handleStreamCont (abortFrom : Option Nat) (partialMessage0 : Str)
    (chunks : List StreamChunk) : StreamOutcome :=
  let run := streamGo abortFrom partialMessage0 chunks 0 partialMessage0
    (!partialMessage0.isEmpty) partialMessage0
  if partialMessage0.isEmpty then
    { run with
      events := (0, StreamEvent.startAssistantMessage) :: run.events }
  else run

/-- File context prompt used by part_006
(src/src/extension/prompts.ts, lines 222 to 227, the variant that also
defines the category prompts part_006 imports). -/
def fileContextPromptCont (fileName content : Str) : Str :=
  "Context: File ".data ++ fileName ++ "\n\n```\n".data ++ content ++
    "\n```".data

/-- Synthetic user message for one attached file as pushed by
chat.prepareMessages of part_006 (lines 642 to 645). -/
def fileContextMessageCont (fileName content : Str) : AIMessage :=
  { role := Role.user, content := some (fileContextPromptCont fileName content) }

/-- Embedding of chat.prepareMessages (src/unnamed/part_006, lines 623
to 680): trimmed history first, then one unshift per attached file read,
then the tool context unshifted in front of those, then the system
message unshifted to the very front and, when the continuation buffer is
nonempty, a synthetic assistant message carrying the buffer pushed at
the very end. -/
def prepareMessagesCont (historyLimit : Nat) (history : List Message)
    (files : List AttachedFileRead) (toolContext : List AIMessage)
    (systemPromptStr : Str) (partialMessage : Str) :
    Except Str (List AIMessage) :=
  let base := (sliceLast historyLimit history).map convertMessage
  match readAll files with
  | Except.error e => Except.error e
  | Except.ok contents =>
    let withFiles := contents.foldl
      (fun acc fc => fileContextMessageCont fc.1 fc.2 :: acc) base
    let withSystem :=
      ({ role := Role.system, content := some systemPromptStr } : AIMessage) ::
        (toolContext ++ withFiles)
    Except.ok
      (if partialMessage.isEmpty then withSystem
       else withSystem ++
        [{ role := Role.assistant, content := some partialMessage }])

/-- First-chunk repair applied to a chunk list: the text of the first
chunk of a continuation round (nonempty buffer) is rewritten by
getContinuationContent, every other chunk is untouched. -/
def repairChunks (partialMessage0 : Str) : List StreamChunk → List StreamChunk
  | [] => []
  | c :: rest =>
    { text :=
        if partialMessage0.isEmpty then c.text
        else getContinuationContent partialMessage0 c.text,
      finish := c.finish } :: rest

/-- Left fold of concatenation, the shape in which the reply accumulator
of the stream loop grows. -/
def accumulate (acc : Str) : List Str → Str
  | [] => acc
  | t :: rest => accumulate (acc ++ t) rest

/-- The full text a round accumulates: the initial buffer followed by
every delta, the first one repaired when the round continues a nonempty
buffer. -/
def accumulatedReply (partialMessage0 : Str) (chunks : List StreamChunk) : Str :=
  accumulate partialMessage0 ((repairChunks partialMessage0 chunks).map StreamChunk.text)

/-- The appendChunk events a run of consecutive delta texts posts,
starting at chunk index i. -/
def chunkEvents (i : Nat) : List Str → List (Nat × StreamEvent)
  | [] => []
  | t :: rest => (i, StreamEvent.appendChunk t) :: chunkEvents (i + 1) rest

/-- Observable webview events of a stop scenario: the user hits stop
after k chunks of a fresh round were processed; stopStream signals the
abort handle and immediately posts endAssistantMessage
(src/unnamed/part_006, lines 425 to 429), after which the stream handler
observes the signal at its next chunk check. -/
def stopScenarioEvents (chunks : List StreamChunk) (k : Nat) :
    List (Nat × StreamEvent) :=
  (k, StreamEvent.endAssistantMessage) ::
    (handleStreamCont (some k) [] chunks).events

/-- Events with timestamp at least k: those posted at or after the
moment the signal fired. -/
def eventsFrom (k : Nat) (events : List (Nat × StreamEvent)) :
    List StreamEvent :=
  (events.filter fun e => decide (k ≤ e.1)).map Prod.snd

/-- A concrete two-chunk stream for the cancellation counterexample. -/
def demoChunks : List StreamChunk :=
  [{ text := "Hi".data }, { text := " there".data, finish := some FinishReason.stop }]

/-- A concrete round body for the C4 witness. -/
def demoBody : List StreamChunk := [⟨"Start".data, none⟩]

/-- The final delta text of the C4 witness round. -/
def demoLastText : Str := "more".data

/-- Budget decrement: one more chunk check has happened. -/
def decBudget : Option Nat → Option Nat
  | none => none
  | some n => some (n - 1)

/-- Embedding of the for-await loop of the simpler handleStream
(src/src/extension/modules/chat-completion.ts, lines 311 to 323, and
identically src/src/extension/extension.ts, lines 418 to 429): the
cancellation check at the top of each iteration breaks out of the loop,
an empty delta is skipped entirely, and a nonempty delta extends the
content and posts an appendChunk event. The budget is the number of
chunk checks left until the signal is observed, none when it never
fires. Returns the accumulated content and the posted chunk events. -/
def streamLoopModules : Option Nat → List Str → Str → Str × List StreamEvent
  | _, [], content => (content, [])
  | budget, t :: rest, content =>
    if budget = some 0 then (content, [])
    else
      let next := streamLoopModules (decBudget budget) rest
        (if t.isEmpty then content else content ++ t)
      (next.1,
        (if t.isEmpty then [] else [StreamEvent.appendChunk t]) ++ next.2)

/-- Embedding of handleStream (src/src/extension/modules/
chat-completion.ts, lines 297 to 335): startAssistantMessage is posted
first, the loop consumes the stream, the assistant message is pushed to
history only when its content does not trim to the empty string, and
endAssistantMessage is posted last. -/
def handleStreamModules (budget : Option Nat) (deltas : List Str) :
    List StreamEvent × Option Message :=
  let run := streamLoopModules budget deltas []
  (StreamEvent.startAssistantMessage ::
      (run.2 ++ [StreamEvent.endAssistantMessage]),
    if (trimStr run.1).isEmpty then none
    else some ⟨dateNowId, Role.assistant, run.1⟩)

/-- The deltas the loop actually processes: all of them, or the first k
when the signal is observed at the k-th check. -/
def consumedDeltas : Option Nat → List Str → List Str
  | none, deltas => deltas
  | some k, deltas => deltas.take k

/-- A whitespace-only delta for the C10 witness. -/
def demoSpace : Str := " ".data

theorem markdownStep_inCodeBlock (st : MarkdownState) (line : Str) :
    (markdownStep st line).inCodeBlock =
      if startsWithStr fence (trimStr line) then !st.inCodeBlock
      else st.inCodeBlock := by
  unfold markdownStep
  by_cases h : startsWithStr fence (trimStr line) = true
  · simp [h]
    cases st.inCodeBlock <;> simp
  · simp [h]

theorem markdown_foldl_flag (lines : List Str) :
    ∀ st : MarkdownState,
      (lines.foldl markdownStep st).inCodeBlock =
        lines.foldl
          (fun flag line =>
            if startsWithStr fence (trimStr line) then !flag else flag)
          st.inCodeBlock := by
  induction lines with
  | nil => intro st; rfl
  | cons l rest ih =>
    intro st
    simp only [List.foldl_cons]
    rw [ih, markdownStep_inCodeBlock]

theorem getMarkdownState_inCodeBlock (s : Str) :
    (getMarkdownState s).inCodeBlock = endsInsideOpenFence s := by
  unfold getMarkdownState endsInsideOpenFence
  exact markdown_foldl_flag (splitOnNewline s) _

/-- C3. For every buffered partial text and every new continuation text,
getContinuationContent returns a closing fence prepended to the new text
exactly when the buffered text ends inside an open fenced block (the
lines whose trimmed form starts with the fence marker toggle an
inside-block flag that ends true) and the trimmed new text starts with
the fence marker; in every other case it returns the new text
unchanged. -/
theorem getContinuationContent_spec (partialMessage newContent : Str) :
    getContinuationContent partialMessage newContent =
      if endsInsideOpenFence partialMessage
          && startsWithStr fence (trimStr newContent) then
        "\n```\n".data ++ newContent
      else newContent := by
  unfold getContinuationContent
  simp only [getMarkdownState_inCodeBlock]

/-- C1. Executing one tool call returns a ToolResult carrying the
requested id and never raises: an unregistered name yields unknown-tool
content, a parse failure of the raw argument JSON yields parse-error
content, and a handler rejection yields error content. Totality with
respect to the caller is the totality of the Lean function itself. -/
theorem executeToolsStep_total {Arg : Type} (parseJson : Str → Except Str Arg)
    (toolMap : Str → Option (ToolInfo Arg)) (tool : ToolCall) :
    (executeToolsStep parseJson toolMap tool).tool_call_id = tool.id ∧
    (∀ e, parseJson tool.arguments = Except.error e →
      (executeToolsStep parseJson toolMap tool).content =
        "Error parsing arguments: ".data ++ e) ∧
    (∀ args, parseJson tool.arguments = Except.ok args →
      toolMap tool.name = none →
      (executeToolsStep parseJson toolMap tool).content =
        "Unknown tool: ".data ++ tool.name) ∧
    (∀ args info e, parseJson tool.arguments = Except.ok args →
      toolMap tool.name = some info → info.execute args = Except.error e →
      (executeToolsStep parseJson toolMap tool).content = "Error: ".data ++ e) := by
  refine ⟨?_, ?_, ?_, ?_⟩
  · unfold executeToolsStep executeToolCall
    cases h : parseJson tool.arguments with
    | error e => simp [h]
    | ok args =>
      cases hm : toolMap tool.name with
      | none => simp [h, hm]
      | some info =>
        cases he : info.execute args with
        | ok r => simp [h, hm, he]
        | error e => simp [h, hm, he]
  · intro e he
    unfold executeToolsStep
    rw [he]
  · intro args hargs hmap
    unfold executeToolsStep executeToolCall
    rw [hargs, hmap]
  · intro args info e hargs hmap hexec
    unfold executeToolsStep executeToolCall
    simp only [hargs, hmap, hexec]

theorem executeToolsStep_id {Arg : Type} (parseJson : Str → Except Str Arg)
    (toolMap : Str → Option (ToolInfo Arg)) (tool : ToolCall) :
    (executeToolsStep parseJson toolMap tool).tool_call_id = tool.id := by
  unfold executeToolsStep executeToolCall
  cases h : parseJson tool.arguments with
  | error e => simp [h]
  | ok args =>
    cases hm : toolMap tool.name with
    | none => simp [h, hm]
    | some info =>
      cases he : info.execute args with
      | ok r => simp [h, hm, he]
      | error e => simp [h, hm, he]

/-- Witness for C1 at a concrete input: the raw argument text does not
parse, and the returned result still carries the requested id together
with the encoded parse error. -/
theorem executeToolsStep_total_witness :
    (executeToolsStep demoParse demoEmptyMap
        { id := "call1".data, name := "read_file".data,
          arguments := "oops".data }).tool_call_id = "call1".data ∧
    (executeToolsStep demoParse demoEmptyMap
        { id := "call1".data, name := "read_file".data,
          arguments := "oops".data }).content =
      "Error parsing arguments: ".data ++ "Unexpected token".data := by
  refine ⟨(executeToolsStep_total demoParse demoEmptyMap _).1, ?_⟩
  exact (executeToolsStep_total demoParse demoEmptyMap _).2.1
    ("Unexpected token".data) (by rfl)

theorem toolLoop_bounds {Arg : Type} (parseJson : Str → Except Str Arg)
    (toolMap : Str → Option (ToolInfo Arg)) (responses : Nat → ToolRound)
    (aborted : Nat → Bool) :
    ∀ (fuel i : Nat) (messages : List AIMessage),
      (toolLoop parseJson toolMap responses aborted fuel i messages).toolPhaseCalls
          ≤ fuel ∧
      (toolLoop parseJson toolMap responses aborted fuel i messages).streamCalls
          ≤ 1 := by
  intro fuel
  induction fuel with
  | zero =>
    intro i messages
    constructor <;> simp [toolLoop]
  | succ n ih =>
    intro i messages
    unfold toolLoop
    by_cases h1 : (responses i).toolCalls.isEmpty
    · simp [h1]
    · by_cases h2 : aborted i
      · simp [h1, h2]
      · simp only [h1, h2, Bool.false_eq_true, if_false]
        constructor
        · exact Nat.succ_le_succ (ih (i + 1) _).1
        · exact (ih (i + 1) _).2

theorem toolLoop_stream_noabort {Arg : Type} (parseJson : Str → Except Str Arg)
    (toolMap : Str → Option (ToolInfo Arg)) (responses : Nat → ToolRound)
    (aborted : Nat → Bool) (hab : ∀ i, aborted i = false) :
    ∀ (fuel i : Nat) (messages : List AIMessage),
      (toolLoop parseJson toolMap responses aborted fuel i messages).streamCalls
        = 1 := by
  intro fuel
  induction fuel with
  | zero => intro i messages; rfl
  | succ n ih =>
    intro i messages
    unfold toolLoop
    by_cases h1 : (responses i).toolCalls.isEmpty
    · simp [h1]
    · simp only [h1, hab i, Bool.false_eq_true, if_false]
      exact ih (i + 1) _

/-- C2. For every sequence of model responses, including one that
requests tool calls on every round, the tool loop makes at most
maxIterations tool-phase model calls, the whole run makes at most
maxIterations plus one model calls, the loop terminates (it is a total
Lean function), and when no cancellation fires the run always falls
through to exactly one final streaming call, so hitting the bound is not
surfaced as an error. -/
theorem createCompletion_bounded {Arg : Type} (parseJson : Str → Except Str Arg)
    (toolMap : Str → Option (ToolInfo Arg)) (useTools : Bool)
    (responses : Nat → ToolRound) (aborted : Nat → Bool)
    (messages : List AIMessage) :
    (createCompletionTrace parseJson toolMap useTools responses aborted
        messages).toolPhaseCalls ≤ maxIterations ∧
    (createCompletionTrace parseJson toolMap useTools responses aborted
          messages).toolPhaseCalls +
        (createCompletionTrace parseJson toolMap useTools responses aborted
          messages).streamCalls ≤ maxIterations + 1 ∧
    ((∀ i, aborted i = false) →
      (createCompletionTrace parseJson toolMap useTools responses aborted
        messages).streamCalls = 1) := by
  unfold createCompletionTrace
  by_cases h : useTools
  · simp only [h, if_true]
    refine ⟨(toolLoop_bounds parseJson toolMap responses aborted maxIterations 0
      messages).1, ?_, ?_⟩
    · exact Nat.add_le_add
        (toolLoop_bounds parseJson toolMap responses aborted maxIterations 0
          messages).1
        (toolLoop_bounds parseJson toolMap responses aborted maxIterations 0
          messages).2
    · intro hab
      exact toolLoop_stream_noabort parseJson toolMap responses aborted hab
        maxIterations 0 messages
  · simp [h, maxIterations]

/-- Witness for C2 at a concrete input: the model requests a tool on
every round, no cancellation fires, and the run still ends with exactly
one streaming call within the bound. -/
theorem createCompletion_bounded_witness :
    (createCompletionTrace demoParse demoEmptyMap true demoResponses
        (fun _ => false) []).streamCalls = 1 ∧
    (createCompletionTrace demoParse demoEmptyMap true demoResponses
        (fun _ => false) []).toolPhaseCalls ≤ maxIterations :=
  ⟨(createCompletion_bounded demoParse demoEmptyMap true demoResponses
      (fun _ => false) []).2.2 (fun _ => rfl),
   (createCompletion_bounded demoParse demoEmptyMap true demoResponses
      (fun _ => false) []).1⟩

/-- C9. For every list of tool-call requests the model emits in one
orchestration round, the loop body appends one assistant message
carrying the raw requests followed by exactly one tool-role message per
request, in request order, each tagged with the id of its request; the
results exist even when argument parsing or the tool handler fails,
because executeToolsStep is total. The appended shape below is exactly
the one toolLoop pushes before its next model call. -/
theorem executeTools_results_match {Arg : Type}
    (parseJson : Str → Except Str Arg)
    (toolMap : Str → Option (ToolInfo Arg)) (content : Option Str)
    (toolCalls : List ToolCall) :
    (executeTools parseJson toolMap toolCalls).map ToolResult.tool_call_id =
      toolCalls.map ToolCall.id ∧
    ({ role := Role.assistant, content := content, tool_calls := toolCalls } ::
        (executeTools parseJson toolMap toolCalls).map fun r =>
          ({ role := Role.tool, content := some r.content,
             tool_call_id := some r.tool_call_id } : AIMessage)) =
      ({ role := Role.assistant, content := content,
         tool_calls := toolCalls } ::
        toolCalls.map fun tc =>
          ({ role := Role.tool,
             content := some (executeToolsStep parseJson toolMap tc).content,
             tool_call_id := some tc.id } : AIMessage)) := by
  constructor
  · induction toolCalls with
    | nil => rfl
    | cons t rest ih => simp [executeTools, executeToolsStep_id] at ih ⊢
  · simp only [List.cons.injEq, true_and]
    induction toolCalls with
    | nil => rfl
    | cons t rest ih => simp [executeTools, executeToolsStep_id] at ih ⊢

/-- Counterexample to C8 as stated: with the cancellation signal already
observed before any execution (the schedule is constantly true), both
requested calls of the iteration are still started by the executeTools
loop; were the token checked before each execution as claimed, no call
would start once the signal is set. -/
theorem executeTools_ignores_cancellation_counterexample :
    startedToolCalls (fun _ => true) [demoCall, demoCallB] =
      ["read_file".data, "grep".data] ∧
    startedToolCalls (fun _ => true) [demoCall, demoCallB] ≠ [] := by
  constructor
  · rfl
  · simp [startedToolCalls]

/-- C8 amended: the cancellation token is consulted once per iteration,
only after all of that iterations tool calls have executed; the
executeTools loop starts every requested call no matter when the signal
fires, and when the post-iteration check observes the signal the loop
exits with the model call count of that one iteration and issues no
further model request and no final streaming request. -/
theorem toolLoop_abort_exit {Arg : Type} (parseJson : Str → Except Str Arg)
    (toolMap : Str → Option (ToolInfo Arg)) (responses : Nat → ToolRound)
    (aborted : Nat → Bool) (fuel i : Nat) (messages : List AIMessage)
    (hcalls : (responses i).toolCalls.isEmpty = false)
    (habort : aborted i = true) :
    (∀ (sched : Nat → Bool) (tools : List ToolCall),
      startedToolCalls sched tools = tools.map ToolCall.name) ∧
    (toolLoop parseJson toolMap responses aborted (fuel + 1) i
        messages).toolPhaseCalls = 1 ∧
    (toolLoop parseJson toolMap responses aborted (fuel + 1) i
        messages).streamCalls = 0 := by
  refine ⟨fun _ _ => rfl, ?_, ?_⟩ <;>
    · unfold toolLoop
      simp [hcalls, habort]

/-- Witness for the amended C8 at a concrete input: the signal fires
during the first iteration, the iteration still runs, and no streaming
request follows. -/
theorem toolLoop_abort_exit_witness :
    (toolLoop demoParse demoEmptyMap demoResponses (fun _ => true)
        maxIterations 0 []).streamCalls = 0 :=
  (toolLoop_abort_exit demoParse demoEmptyMap demoResponses (fun _ => true)
    9 0 [] rfl rfl).2.2

theorem readAll_ok (files : List (Str × Str)) :
    readAll (files.map fun f =>
      { name := f.1, read := Except.ok f.2 : AttachedFileRead }) =
      Except.ok files := by
  induction files with
  | nil => rfl
  | cons f rest ih => simp [readAll, ih]

theorem foldl_cons_reverse {α β : Type} (g : α → β) :
    ∀ (l : List α) (init : List β),
      l.foldl (fun acc x => g x :: acc) init = (l.map g).reverse ++ init := by
  intro l
  induction l with
  | nil => intro init; rfl
  | cons x rest ih =>
    intro init
    simp only [List.foldl_cons, List.map_cons, List.reverse_cons, ih,
      List.append_assoc, List.singleton_append]

/-- C5 amended: the assembled list starts with the system message,
followed by the attached-file context messages (in reverse completion
order of their reads), then the static project-context message when it
is present and readable, then the trimmed history; in particular the
first element always has the system role and every synthetic
file-context message precedes every history message. The original claim
placed the static context before the attached files; the source unshifts
the project message before unshifting the file messages, so the file
messages end up first. -/
theorem prepareMessages_order (toolsEnabled : Bool) (historyLimit : Nat)
    (history : List Message) (projectMd : Option (Except Str Str))
    (files : List (Str × Str)) :
    prepareMessagesModules toolsEnabled historyLimit history projectMd
        (files.map fun f => { name := f.1, read := Except.ok f.2 }) =
      Except.ok (systemMessage toolsEnabled ::
        ((files.map fun f => fileContextMessage f.1 f.2).reverse ++
          (projectContextList projectMd ++
            (sliceLast historyLimit history).map convertMessage))) ∧
    (systemMessage toolsEnabled).role = Role.system := by
  constructor
  · unfold prepareMessagesModules
    rw [readAll_ok]
    simp only [foldl_cons_reverse]
  · rfl

/-- Counterexample to C5 as stated: with one attached file and a
readable project.md, the element right after the system message is the
attached-file context message, not the static project-context message,
so the claimed order system, static context, attached files, history
does not hold on the code. -/
theorem prepareMessages_order_counterexample :
    prepareMessagesModules false 10 [demoHistoryMsg]
        (some (Except.ok demoProjectContent))
        [{ name := demoFileName, read := Except.ok demoFileContent }] =
      Except.ok [systemMessage false,
        fileContextMessage demoFileName demoFileContent,
        fileContextMessage projectMdName demoProjectContent,
        convertMessage demoHistoryMsg] ∧
    fileContextMessage demoFileName demoFileContent ≠
      fileContextMessage projectMdName demoProjectContent := by
  constructor
  · rfl
  · decide

/-- Counterexample to C7 as stated: when the second attached file read
fails, prepareMessages does not return an assembled list omitting that
file; the rejection propagates and the whole assembly aborts with the
error. -/
theorem prepareMessages_fileError_counterexample :
    prepareMessagesModules false 10 [] none
        [{ name := demoFileName, read := Except.ok demoFileContent },
         { name := "b.txt".data, read := Except.error "EACCES".data }] =
      Except.error "EACCES".data := by
  rfl

/-- C7 amended: a failed attached-file read is not tolerated; the first
rejection among the attached file reads propagates out of
prepareMessages (Promise.all rejects and no message list is assembled,
so the turn takes the error path of createCompletion). Only the static
project-context read is per-file protected: its failure yields the same
assembly as its absence. -/
theorem prepareMessages_fileError (toolsEnabled : Bool) (historyLimit : Nat)
    (history : List Message) (projectMd : Option (Except Str Str))
    (pre : List (Str × Str)) (badName emsg : Str)
    (rest : List AttachedFileRead) (e2 : Str) (files2 : List AttachedFileRead) :
    prepareMessagesModules toolsEnabled historyLimit history projectMd
        ((pre.map fun f => { name := f.1, read := Except.ok f.2 }) ++
          ({ name := badName, read := Except.error emsg } :: rest)) =
      Except.error emsg ∧
    prepareMessagesModules toolsEnabled historyLimit history
        (some (Except.error e2)) files2 =
      prepareMessagesModules toolsEnabled historyLimit history none files2 := by
  constructor
  · unfold prepareMessagesModules
    have h : readAll
        ((pre.map fun f =>
          { name := f.1, read := Except.ok f.2 : AttachedFileRead }) ++
          ({ name := badName, read := Except.error emsg } :: rest)) =
        Except.error emsg := by
      induction pre with
      | nil => rfl
      | cons f rest2 ih => simp [readAll, ih]
    rw [h]
  · rfl

theorem streamGo_cons_noabort (abortFrom : Option Nat) (partialMessage0 : Str)
    (c : StreamChunk) (rest : List StreamChunk) (i : Nat)
    (reply pm processed pm2 : Str) (isFirst : Bool)
    (h : abortSignaled abortFrom i = false)
    (hp : processed =
      if isFirst && !partialMessage0.isEmpty then
        getContinuationContent partialMessage0 c.text
      else c.text)
    (hpm2 : pm2 =
      match c.finish with
      | some FinishReason.length => reply ++ processed
      | some FinishReason.stop => []
      | _ => pm) :
    streamGo abortFrom partialMessage0 (c :: rest) i reply isFirst pm =
      { streamGo abortFrom partialMessage0 rest (i + 1) (reply ++ processed)
          false pm2 with
        events := (i, StreamEvent.appendChunk processed) ::
          (streamGo abortFrom partialMessage0 rest (i + 1) (reply ++ processed)
            false pm2).events } := by
  subst hp
  subst hpm2
  conv_lhs => unfold streamGo
  rw [h]
  simp only [Bool.false_eq_true, if_false]

theorem streamGo_repair (partialMessage0 : Str) (chunks : List StreamChunk)
    (i : Nat) (reply pm : Str) :
    streamGo none partialMessage0 chunks i reply (!partialMessage0.isEmpty) pm =
      streamGo none partialMessage0 (repairChunks partialMessage0 chunks) i
        reply false pm := by
  cases chunks with
  | nil => rfl
  | cons c rest =>
    cases hE : partialMessage0.isEmpty with
    | true =>
      have hrep : repairChunks partialMessage0 (c :: rest) = c :: rest := by
        unfold repairChunks
        simp [hE]
      rw [hrep]
      rw [streamGo_cons_noabort none partialMessage0 c rest i reply pm c.text _
          (!true) rfl (by simp [hE]) rfl]
      rw [streamGo_cons_noabort none partialMessage0 c rest i reply pm c.text _
          false rfl (by simp [hE]) rfl]
    | false =>
      have hrep : repairChunks partialMessage0 (c :: rest) =
          ({ text := getContinuationContent partialMessage0 c.text,
             finish := c.finish } : StreamChunk) :: rest := by
        unfold repairChunks
        simp [hE]
      rw [hrep]
      rw [streamGo_cons_noabort none partialMessage0 c rest i reply pm
          (getContinuationContent partialMessage0 c.text) _ (!false) rfl
          (by simp [hE]) rfl]
      rw [streamGo_cons_noabort none partialMessage0 _ rest i reply pm
          (getContinuationContent partialMessage0 c.text) _ false rfl
          (by simp [hE]) rfl]

theorem streamGo_consume (partialMessage0 : Str) (body : List StreamChunk)
    (hbody : ∀ c ∈ body, c.finish = none) :
    ∀ (tail : List StreamChunk) (i : Nat) (reply pm : Str),
      streamGo none partialMessage0 (body ++ tail) i reply false pm =
        { streamGo none partialMessage0 tail (i + body.length)
            (accumulate reply (body.map StreamChunk.text)) false pm with
          events := chunkEvents i (body.map StreamChunk.text) ++
            (streamGo none partialMessage0 tail (i + body.length)
              (accumulate reply (body.map StreamChunk.text)) false pm).events } := by
  induction body with
  | nil =>
    intro tail i reply pm
    simp [chunkEvents, accumulate]
  | cons c rest ih =>
    intro tail i reply pm
    have hc : c.finish = none := hbody c (List.mem_cons_self c rest)
    have hrest : ∀ x ∈ rest, x.finish = none :=
      fun x hx => hbody x (List.mem_cons_of_mem c hx)
    rw [List.cons_append]
    rw [streamGo_cons_noabort none partialMessage0 c (rest ++ tail) i reply pm
        c.text pm false rfl (by simp) (by rw [hc])]
    rw [ih hrest tail (i + 1) (reply ++ c.text) pm]
    have hidx : i + 1 + rest.length = i + (rest.length + 1) := by omega
    rw [hidx]
    rfl

theorem streamGo_abort (partialMessage0 : Str) (k : Nat)
    (chunks : List StreamChunk) :
    ∀ (i : Nat) (reply pm : Str) (isFirst : Bool),
      i ≤ k → k < i + chunks.length →
      ∃ pre : List (Nat × StreamEvent),
        streamGo (some k) partialMessage0 chunks i reply isFirst pm =
          { events := pre ++ [(k, StreamEvent.endAssistantMessage)],
            partialMessage := [], historyAppend := none, reinvoked := false } ∧
        ∀ e ∈ pre, (∃ t, e.2 = StreamEvent.appendChunk t) ∧ e.1 < k := by
  induction chunks with
  | nil =>
    intro i reply pm isFirst hik hlt
    simp at hlt
    omega
  | cons c rest ih =>
    intro i reply pm isFirst hik hlt
    by_cases hk : k ≤ i
    · have hik2 : i = k := Nat.le_antisymm hik hk
      refine ⟨[], ?_, by simp⟩
      conv_lhs => unfold streamGo
      have habort : abortSignaled (some k) i = true := by
        simp [abortSignaled]
        omega
      rw [habort]
      simp [hik2]
    · have hlt2 : i < k := Nat.lt_of_not_le hk
      have habort : abortSignaled (some k) i = false := by
        simp [abortSignaled]
        omega
      rw [streamGo_cons_noabort (some k) partialMessage0 c rest i reply pm _ _
          isFirst habort rfl rfl]
      obtain ⟨pre, heq, hpre⟩ := ih (i + 1) _ _ false (by omega)
        (by simp at hlt ⊢; omega)
      rw [heq]
      refine ⟨(i, StreamEvent.appendChunk
        (if isFirst && !partialMessage0.isEmpty then
          getContinuationContent partialMessage0 c.text
        else c.text)) :: pre, rfl, ?_⟩
      intro e he
      rcases List.mem_cons.mp he with h1 | h2
      · subst h1
        exact ⟨⟨_, rfl⟩, hlt2⟩
      · exact hpre e h2

/-- Counterexample to C6 as stated: the user stops the turn after the
first of two chunks; after the signal no further chunk is appended and
no error event fires, but two endAssistantMessage events are observed,
one posted by stopStream itself at signal time and one posted by the
stream handler when it observes the signal, so the turn does not observe
exactly one terminal message-ended event. -/
theorem stopScenario_counterexample :
    eventsFrom 1 (stopScenarioEvents demoChunks 1) =
      [StreamEvent.endAssistantMessage, StreamEvent.endAssistantMessage] ∧
    (eventsFrom 1 (stopScenarioEvents demoChunks 1)).count
        StreamEvent.endAssistantMessage ≠ 1 := by
  constructor
  · rfl
  · decide

/-- C6 amended: after the cancellation handle is signaled mid-stream
(at least one chunk of the round is still unprocessed), no further
chunk-appended event and no error event is emitted, and the stream
handler emits exactly one terminal message-ended event; because the stop
command itself also emits one message-ended at signal time, exactly two
message-ended events are observed for the turn after the signal. -/
theorem stopScenario_events (chunks : List StreamChunk) (k : Nat)
    (hk : k < chunks.length) :
    (∀ t, StreamEvent.appendChunk t ∉
        eventsFrom k (stopScenarioEvents chunks k)) ∧
    StreamEvent.apiError ∉ eventsFrom k (stopScenarioEvents chunks k) ∧
    (eventsFrom k (stopScenarioEvents chunks k)).count
        StreamEvent.endAssistantMessage = 2 := by
  obtain ⟨pre, heq, hpre⟩ := streamGo_abort [] k chunks 0 [] [] false
    (Nat.zero_le k) (by simpa using hk)
  have h1 : handleStreamCont (some k) [] chunks =
      { streamGo (some k) [] chunks 0 [] false [] with
        events := (0, StreamEvent.startAssistantMessage) ::
          (streamGo (some k) [] chunks 0 [] false []).events } := rfl
  have hfil : pre.filter (fun e => decide (k ≤ e.1)) = [] := by
    rw [List.filter_eq_nil_iff]
    intro e he
    have := (hpre e he).2
    simp
    omega
  by_cases hk0 : k ≤ 0
  · have hlist : eventsFrom k (stopScenarioEvents chunks k) =
        [StreamEvent.endAssistantMessage, StreamEvent.startAssistantMessage,
         StreamEvent.endAssistantMessage] := by
      unfold stopScenarioEvents eventsFrom
      rw [h1, heq]
      simp [List.filter_cons, List.filter_append, hfil, hk0]
    refine ⟨?_, ?_, ?_⟩ <;> rw [hlist]
    · intro t
      simp
    · simp
    · decide
  · have hlist : eventsFrom k (stopScenarioEvents chunks k) =
        [StreamEvent.endAssistantMessage, StreamEvent.endAssistantMessage] := by
      unfold stopScenarioEvents eventsFrom
      rw [h1, heq]
      simp [List.filter_cons, List.filter_append, hfil, hk0]
    refine ⟨?_, ?_, ?_⟩ <;> rw [hlist]
    · intro t
      simp
    · simp
    · decide

/-- Witness for the amended C6 at a concrete input: stop after one of
two chunks. -/
theorem stopScenario_events_witness :
    (eventsFrom 1 (stopScenarioEvents demoChunks 1)).count
      StreamEvent.endAssistantMessage = 2 :=
  (stopScenario_events demoChunks 1 (by decide)).2.2

theorem accumulate_concat (t : Str) :
    ∀ (l : List Str) (acc : Str), accumulate acc (l ++ [t]) = accumulate acc l ++ t := by
  intro l
  induction l with
  | nil => intro acc; rfl
  | cons x rest ih => intro acc; exact ih (acc ++ x)

theorem chunkEvents_mem (l : List Str) :
    ∀ (i : Nat) (e : Nat × StreamEvent), e ∈ chunkEvents i l →
      ∃ t, e.2 = StreamEvent.appendChunk t := by
  induction l with
  | nil =>
    intro i e he
    simp [chunkEvents] at he
  | cons x rest ih =>
    intro i e he
    rcases List.mem_cons.mp he with h1 | h2
    · subst h1
      exact ⟨x, rfl⟩
    · exact ih (i + 1) e h2

theorem repairChunks_decomp (partialMessage0 : Str) (body : List StreamChunk)
    (last : StreamChunk) (hbody : ∀ c ∈ body, c.finish = none) :
    ∃ (rbody : List StreamChunk) (rlast : StreamChunk),
      repairChunks partialMessage0 (body ++ [last]) = rbody ++ [rlast] ∧
      (∀ c ∈ rbody, c.finish = none) ∧
      rlast.finish = last.finish ∧
      rbody.map StreamChunk.text ++ [rlast.text] =
        (repairChunks partialMessage0 (body ++ [last])).map StreamChunk.text := by
  cases body with
  | nil =>
    refine ⟨[], ⟨(if partialMessage0.isEmpty then last.text
      else getContinuationContent partialMessage0 last.text), last.finish⟩,
      rfl, ?_, rfl, rfl⟩
    intro c hc
    simp at hc
  | cons c bs =>
    refine ⟨⟨(if partialMessage0.isEmpty then c.text
      else getContinuationContent partialMessage0 c.text), c.finish⟩ :: bs,
      last, rfl, ?_, rfl, by simp [repairChunks]⟩
    intro x hx
    rcases List.mem_cons.mp hx with h1 | h2
    · subst h1
      exact hbody c (List.mem_cons_self c bs)
    · exact hbody x (List.mem_cons_of_mem c h2)

theorem streamGo_run_eq (partialMessage0 : Str) (rbody : List StreamChunk)
    (hrb : ∀ c ∈ rbody, c.finish = none) (rlast : StreamChunk) (pm2 : Str)
    (hpm2 : pm2 =
      match rlast.finish with
      | some FinishReason.length =>
          accumulate partialMessage0 (rbody.map StreamChunk.text) ++ rlast.text
      | some FinishReason.stop => []
      | _ => partialMessage0) :
    streamGo none partialMessage0 (rbody ++ [rlast]) 0 partialMessage0 false
        partialMessage0 =
      { streamGo none partialMessage0 [] (0 + rbody.length + 1)
          (accumulate partialMessage0 (rbody.map StreamChunk.text) ++ rlast.text)
          false pm2 with
        events := chunkEvents 0 (rbody.map StreamChunk.text) ++
          ((0 + rbody.length, StreamEvent.appendChunk rlast.text) ::
            (streamGo none partialMessage0 [] (0 + rbody.length + 1)
              (accumulate partialMessage0 (rbody.map StreamChunk.text) ++
                rlast.text) false pm2).events) } := by
  rw [streamGo_consume partialMessage0 rbody hrb [rlast] 0 partialMessage0
      partialMessage0]
  rw [streamGo_cons_noabort none partialMessage0 rlast [] (0 + rbody.length)
      (accumulate partialMessage0 (rbody.map StreamChunk.text)) partialMessage0
      rlast.text pm2 false rfl (by simp) hpm2]

theorem handleStreamCont_length_case (partialMessage0 : Str)
    (body : List StreamChunk) (hbody : ∀ c ∈ body, c.finish = none)
    (lastText : Str)
    (hne : (accumulatedReply partialMessage0
      (body ++ [⟨lastText, some FinishReason.length⟩])).isEmpty = false) :
    (handleStreamCont none partialMessage0
        (body ++ [⟨lastText, some FinishReason.length⟩])).partialMessage =
      accumulatedReply partialMessage0
        (body ++ [⟨lastText, some FinishReason.length⟩]) ∧
    (∀ e ∈ (handleStreamCont none partialMessage0
        (body ++ [⟨lastText, some FinishReason.length⟩])).events,
      e.2 ≠ StreamEvent.endAssistantMessage) ∧
    (handleStreamCont none partialMessage0
        (body ++ [⟨lastText, some FinishReason.length⟩])).reinvoked = true ∧
    (handleStreamCont none partialMessage0
        (body ++ [⟨lastText, some FinishReason.length⟩])).historyAppend =
      none := by
  obtain ⟨rbody, rlast, hdec, hrb, hrfin, hmap⟩ :=
    repairChunks_decomp partialMessage0 body
      ⟨lastText, some FinishReason.length⟩ hbody
  have hacc : accumulatedReply partialMessage0
      (body ++ [⟨lastText, some FinishReason.length⟩]) =
      accumulate partialMessage0 (rbody.map StreamChunk.text) ++ rlast.text := by
    unfold accumulatedReply
    rw [← hmap, accumulate_concat]
  rw [hacc] at hne
  have htail : streamGo none partialMessage0 [] (0 + rbody.length + 1)
      (accumulate partialMessage0 (rbody.map StreamChunk.text) ++ rlast.text)
      false
      (accumulate partialMessage0 (rbody.map StreamChunk.text) ++ rlast.text) =
      { events := [],
        partialMessage :=
          accumulate partialMessage0 (rbody.map StreamChunk.text) ++ rlast.text,
        historyAppend := none, reinvoked := true } := by
    conv_lhs => unfold streamGo
    rw [hne]
    simp
  have hR : streamGo none partialMessage0
      (body ++ [⟨lastText, some FinishReason.length⟩]) 0 partialMessage0
      (!partialMessage0.isEmpty) partialMessage0 =
      { events := chunkEvents 0 (rbody.map StreamChunk.text) ++
          [(0 + rbody.length, StreamEvent.appendChunk rlast.text)],
        partialMessage :=
          accumulate partialMessage0 (rbody.map StreamChunk.text) ++ rlast.text,
        historyAppend := none, reinvoked := true } := by
    rw [streamGo_repair, hdec,
      streamGo_run_eq partialMessage0 rbody hrb rlast _ (by rw [hrfin]), htail]
  have hout : handleStreamCont none partialMessage0
      (body ++ [⟨lastText, some FinishReason.length⟩]) =
      (if partialMessage0.isEmpty then
        { events := (0, StreamEvent.startAssistantMessage) ::
            (chunkEvents 0 (rbody.map StreamChunk.text) ++
              [(0 + rbody.length, StreamEvent.appendChunk rlast.text)]),
          partialMessage :=
            accumulate partialMessage0 (rbody.map StreamChunk.text) ++
              rlast.text,
          historyAppend := none, reinvoked := true }
      else
        { events := chunkEvents 0 (rbody.map StreamChunk.text) ++
            [(0 + rbody.length, StreamEvent.appendChunk rlast.text)],
          partialMessage :=
            accumulate partialMessage0 (rbody.map StreamChunk.text) ++
              rlast.text,
          historyAppend := none, reinvoked := true }) := by
    unfold handleStreamCont
    simp only [hR]
  have hmem : ∀ e ∈ chunkEvents 0 (rbody.map StreamChunk.text) ++
      [(0 + rbody.length, StreamEvent.appendChunk rlast.text)],
      (e : Nat × StreamEvent).2 ≠ StreamEvent.endAssistantMessage := by
    intro e he
    rcases List.mem_append.mp he with h1 | h2
    · obtain ⟨t, ht⟩ := chunkEvents_mem (rbody.map StreamChunk.text) 0 e h1
      rw [ht]
      simp
    · simp only [List.mem_singleton] at h2
      subst h2
      simp
  refine ⟨?_, ?_, ?_, ?_⟩
  · rw [hout, hacc]
    cases hpe : partialMessage0.isEmpty <;> simp
  · intro e he
    rw [hout] at he
    by_cases hpe : partialMessage0.isEmpty = true
    · rw [if_pos hpe] at he
      rcases List.mem_cons.mp he with h1 | h2
      · rw [h1]
        simp
      · exact hmem e h2
    · rw [if_neg hpe] at he
      exact hmem e he
  · rw [hout]
    cases hpe : partialMessage0.isEmpty <;> simp
  · rw [hout]
    cases hpe : partialMessage0.isEmpty <;> simp

theorem getLast_snd_shape (pre : List (Nat × StreamEvent)) (j : Nat) :
    ((pre ++ [(j, StreamEvent.endAssistantMessage)]).map Prod.snd).getLast? =
      some StreamEvent.endAssistantMessage := by
  rw [List.map_append]
  exact List.getLast?_concat _

theorem handleStreamCont_stop_case (partialMessage0 : Str)
    (body : List StreamChunk) (hbody : ∀ c ∈ body, c.finish = none)
    (lastText : Str) :
    (handleStreamCont none partialMessage0
        (body ++ [⟨lastText, some FinishReason.stop⟩])).partialMessage = [] ∧
    ((handleStreamCont none partialMessage0
        (body ++ [⟨lastText, some FinishReason.stop⟩])).events.map
          Prod.snd).getLast? = some StreamEvent.endAssistantMessage ∧
    (handleStreamCont none partialMessage0
        (body ++ [⟨lastText, some FinishReason.stop⟩])).historyAppend =
      some ⟨dateNowId, Role.assistant, accumulatedReply partialMessage0
        (body ++ [⟨lastText, some FinishReason.stop⟩])⟩ ∧
    (handleStreamCont none partialMessage0
        (body ++ [⟨lastText, some FinishReason.stop⟩])).reinvoked = false := by
  obtain ⟨rbody, rlast, hdec, hrb, hrfin, hmap⟩ :=
    repairChunks_decomp partialMessage0 body
      ⟨lastText, some FinishReason.stop⟩ hbody
  have hacc : accumulatedReply partialMessage0
      (body ++ [⟨lastText, some FinishReason.stop⟩]) =
      accumulate partialMessage0 (rbody.map StreamChunk.text) ++ rlast.text := by
    unfold accumulatedReply
    rw [← hmap, accumulate_concat]
  have htail : streamGo none partialMessage0 [] (0 + rbody.length + 1)
      (accumulate partialMessage0 (rbody.map StreamChunk.text) ++ rlast.text)
      false [] =
      { events := [(0 + rbody.length + 1, StreamEvent.endAssistantMessage)],
        partialMessage := [],
        historyAppend := some ⟨dateNowId, Role.assistant,
          accumulate partialMessage0 (rbody.map StreamChunk.text) ++
            rlast.text⟩,
        reinvoked := false } := by
    conv_lhs => unfold streamGo
    simp
  have hR : streamGo none partialMessage0
      (body ++ [⟨lastText, some FinishReason.stop⟩]) 0 partialMessage0
      (!partialMessage0.isEmpty) partialMessage0 =
      { events := chunkEvents 0 (rbody.map StreamChunk.text) ++
          [(0 + rbody.length, StreamEvent.appendChunk rlast.text),
           (0 + rbody.length + 1, StreamEvent.endAssistantMessage)],
        partialMessage := [],
        historyAppend := some ⟨dateNowId, Role.assistant,
          accumulate partialMessage0 (rbody.map StreamChunk.text) ++
            rlast.text⟩,
        reinvoked := false } := by
    rw [streamGo_repair, hdec,
      streamGo_run_eq partialMessage0 rbody hrb rlast [] (by rw [hrfin]), htail]
  have hout : handleStreamCont none partialMessage0
      (body ++ [⟨lastText, some FinishReason.stop⟩]) =
      (if partialMessage0.isEmpty then
        { events := (0, StreamEvent.startAssistantMessage) ::
            (chunkEvents 0 (rbody.map StreamChunk.text) ++
              [(0 + rbody.length, StreamEvent.appendChunk rlast.text),
               (0 + rbody.length + 1, StreamEvent.endAssistantMessage)]),
          partialMessage := [],
          historyAppend := some ⟨dateNowId, Role.assistant,
            accumulate partialMessage0 (rbody.map StreamChunk.text) ++
              rlast.text⟩,
          reinvoked := false }
      else
        { events := chunkEvents 0 (rbody.map StreamChunk.text) ++
            [(0 + rbody.length, StreamEvent.appendChunk rlast.text),
             (0 + rbody.length + 1, StreamEvent.endAssistantMessage)],
          partialMessage := [],
          historyAppend := some ⟨dateNowId, Role.assistant,
            accumulate partialMessage0 (rbody.map StreamChunk.text) ++
              rlast.text⟩,
          reinvoked := false }) := by
    unfold handleStreamCont
    simp only [hR]
  refine ⟨?_, ?_, ?_, ?_⟩
  · rw [hout]
    cases hpe : partialMessage0.isEmpty <;> simp
  · rw [hout]
    by_cases hpe : partialMessage0.isEmpty = true
    · rw [if_pos hpe]
      have hsh : (0, StreamEvent.startAssistantMessage) ::
          (chunkEvents 0 (rbody.map StreamChunk.text) ++
            [(0 + rbody.length, StreamEvent.appendChunk rlast.text),
             (0 + rbody.length + 1, StreamEvent.endAssistantMessage)]) =
          ((0, StreamEvent.startAssistantMessage) ::
            (chunkEvents 0 (rbody.map StreamChunk.text) ++
              [(0 + rbody.length, StreamEvent.appendChunk rlast.text)])) ++
            [(0 + rbody.length + 1, StreamEvent.endAssistantMessage)] := by
        simp
      rw [hsh, getLast_snd_shape]
    · rw [if_neg hpe]
      have hsh : chunkEvents 0 (rbody.map StreamChunk.text) ++
          [(0 + rbody.length, StreamEvent.appendChunk rlast.text),
           (0 + rbody.length + 1, StreamEvent.endAssistantMessage)] =
          (chunkEvents 0 (rbody.map StreamChunk.text) ++
            [(0 + rbody.length, StreamEvent.appendChunk rlast.text)]) ++
            [(0 + rbody.length + 1, StreamEvent.endAssistantMessage)] := by
        simp
      rw [hsh, getLast_snd_shape]
  · rw [hout, hacc]
    cases hpe : partialMessage0.isEmpty <;> simp
  · rw [hout]
    cases hpe : partialMessage0.isEmpty <;> simp

theorem prepareMessagesCont_buffer (historyLimit : Nat)
    (history : List Message) (files : List (Str × Str))
    (toolContext : List AIMessage) (systemPromptStr : Str) (b : Str)
    (hb : b.isEmpty = false) :
    ∃ l, prepareMessagesCont historyLimit history
        (files.map fun f => { name := f.1, read := Except.ok f.2 }) toolContext
        systemPromptStr b = Except.ok l ∧
      l.getLast? = some ⟨Role.assistant, some b, [], none⟩ := by
  have h1 : prepareMessagesCont historyLimit history
      (files.map fun f => { name := f.1, read := Except.ok f.2 }) toolContext
      systemPromptStr b =
      Except.ok ((⟨Role.system, some systemPromptStr, [], none⟩ ::
        (toolContext ++ files.foldl
          (fun acc fc => fileContextMessageCont fc.1 fc.2 :: acc)
          ((sliceLast historyLimit history).map convertMessage))) ++
        [⟨Role.assistant, some b, [], none⟩]) := by
    unfold prepareMessagesCont
    rw [readAll_ok, hb]
    simp
  exact ⟨_, h1, List.getLast?_concat _⟩

/-- Counterexample to C4 as stated: a round that ends with finish reason
length but whose accumulated text is empty (one chunk with empty delta,
no prior buffer). JavaScript treats the empty buffer as falsy, so the
handler finalizes the round as if it had stopped: it posts
endAssistantMessage, pushes an empty assistant message to history, and
does not re-invoke the pipeline, contradicting the claimed length
behavior. -/
theorem handleStreamCont_empty_length_counterexample :
    (handleStreamCont none [] [⟨[], some FinishReason.length⟩]).reinvoked =
      false ∧
    (1, StreamEvent.endAssistantMessage) ∈
      (handleStreamCont none [] [⟨[], some FinishReason.length⟩]).events ∧
    (handleStreamCont none [] [⟨[], some FinishReason.length⟩]).historyAppend =
      some ⟨dateNowId, Role.assistant, []⟩ := by
  refine ⟨rfl, ?_, rfl⟩
  decide

/-- C4 amended. When a streaming round ends with finish reason length
and the accumulated text (initial buffer plus processed deltas) is
nonempty, the continuation buffer is set to that full text, no
message-ended event is posted in that round, the pipeline is re-invoked,
nothing is pushed to history, and re-running message assembly on the new
buffer yields a list whose last element is a synthetic assistant message
carrying the buffered text. When a round ends with finish reason stop,
the buffer is cleared, the last posted event of the round is
message-ended, and one assistant message carrying the whole accumulated
text is appended to history. The nonemptiness condition is the one
amendment the counterexample forces: with empty accumulated text the
falsy buffer makes the handler finalize the round instead. -/
theorem handleStream_continuation (partialMessage0 : Str)
    (body : List StreamChunk) (hbody : ∀ c ∈ body, c.finish = none)
    (lastText : Str) (historyLimit : Nat) (history : List Message)
    (files : List (Str × Str)) (toolContext : List AIMessage)
    (systemPromptStr : Str) :
    ((accumulatedReply partialMessage0
        (body ++ [⟨lastText, some FinishReason.length⟩])).isEmpty = false →
      (handleStreamCont none partialMessage0
          (body ++ [⟨lastText, some FinishReason.length⟩])).partialMessage =
        accumulatedReply partialMessage0
          (body ++ [⟨lastText, some FinishReason.length⟩]) ∧
      (∀ e ∈ (handleStreamCont none partialMessage0
          (body ++ [⟨lastText, some FinishReason.length⟩])).events,
        e.2 ≠ StreamEvent.endAssistantMessage) ∧
      (handleStreamCont none partialMessage0
          (body ++ [⟨lastText, some FinishReason.length⟩])).reinvoked = true ∧
      (handleStreamCont none partialMessage0
          (body ++ [⟨lastText, some FinishReason.length⟩])).historyAppend =
        none ∧
      (∃ l, prepareMessagesCont historyLimit history
          (files.map fun f => { name := f.1, read := Except.ok f.2 })
          toolContext systemPromptStr
          (handleStreamCont none partialMessage0
            (body ++ [⟨lastText, some FinishReason.length⟩])).partialMessage =
          Except.ok l ∧
        l.getLast? = some ⟨Role.assistant,
          some (accumulatedReply partialMessage0
            (body ++ [⟨lastText, some FinishReason.length⟩])), [], none⟩)) ∧
    ((handleStreamCont none partialMessage0
        (body ++ [⟨lastText, some FinishReason.stop⟩])).partialMessage = [] ∧
      ((handleStreamCont none partialMessage0
          (body ++ [⟨lastText, some FinishReason.stop⟩])).events.map
            Prod.snd).getLast? = some StreamEvent.endAssistantMessage ∧
      (handleStreamCont none partialMessage0
          (body ++ [⟨lastText, some FinishReason.stop⟩])).historyAppend =
        some ⟨dateNowId, Role.assistant, accumulatedReply partialMessage0
          (body ++ [⟨lastText, some FinishReason.stop⟩])⟩ ∧
      (handleStreamCont none partialMessage0
          (body ++ [⟨lastText, some FinishReason.stop⟩])).reinvoked =
        false) := by
  constructor
  · intro hne
    obtain ⟨h1, h2, h3, h4⟩ :=
      handleStreamCont_length_case partialMessage0 body hbody lastText hne
    refine ⟨h1, h2, h3, h4, ?_⟩
    rw [h1]
    exact prepareMessagesCont_buffer historyLimit history files toolContext
      systemPromptStr _ hne
  · exact handleStreamCont_stop_case partialMessage0 body hbody lastText

/-- Witness for the amended C4 at a concrete input: a fresh round
yielding Start then a truncated final delta re-invokes the pipeline, and
the same round ending with stop pushes one assistant message carrying
the whole text. -/
theorem handleStream_continuation_witness :
    (handleStreamCont none []
        (demoBody ++ [⟨demoLastText, some FinishReason.length⟩])).reinvoked =
      true ∧
    (handleStreamCont none []
        (demoBody ++ [⟨demoLastText, some FinishReason.stop⟩])).historyAppend =
      some ⟨dateNowId, Role.assistant, accumulatedReply []
        (demoBody ++ [⟨demoLastText, some FinishReason.stop⟩])⟩ := by
  have hb : ∀ c ∈ demoBody, c.finish = none := by
    intro c hc
    simp only [demoBody, List.mem_singleton] at hc
    rw [hc]
  constructor
  · exact ((handleStream_continuation [] demoBody hb demoLastText 10 [] [] []
      []).1 (by rfl)).2.2.1
  · exact ((handleStream_continuation [] demoBody hb demoLastText 10 [] [] []
      []).2).2.2.1

theorem accumulate_cons_skip (content t : Str) (l : List Str) :
    accumulate content (t :: l) =
      accumulate (if t.isEmpty then content else content ++ t) l := by
  cases t with
  | nil => simp [accumulate]
  | cons c rest => simp [accumulate]

theorem streamLoopModules_content (deltas : List Str) :
    ∀ (budget : Option Nat) (content : Str),
      (streamLoopModules budget deltas content).1 =
        accumulate content (consumedDeltas budget deltas) := by
  induction deltas with
  | nil =>
    intro budget content
    cases budget <;> simp [streamLoopModules, consumedDeltas, accumulate]
  | cons t rest ih =>
    intro budget content
    cases budget with
    | none =>
      have hstep : (streamLoopModules none (t :: rest) content).1 =
          (streamLoopModules none rest
            (if t.isEmpty then content else content ++ t)).1 := by
        conv_lhs => unfold streamLoopModules
        simp [decBudget]
      rw [hstep, ih]
      rw [show consumedDeltas none (t :: rest) = t :: consumedDeltas none rest
        from rfl]
      rw [accumulate_cons_skip]
    | some k =>
      cases k with
      | zero =>
        conv_lhs => unfold streamLoopModules
        simp [consumedDeltas, accumulate]
      | succ n =>
        have hstep : (streamLoopModules (some (n + 1)) (t :: rest) content).1 =
            (streamLoopModules (some n) rest
              (if t.isEmpty then content else content ++ t)).1 := by
          conv_lhs => unfold streamLoopModules
          simp [decBudget]
        rw [hstep, ih]
        rw [show consumedDeltas (some (n + 1)) (t :: rest) =
          t :: consumedDeltas (some n) rest from rfl]
        rw [accumulate_cons_skip]

/-- C10. If the concatenation of all deltas consumed from the stream
(those processed before the cancellation check stops the loop, all of
them when no signal fires) trims to the empty string, handleStream
leaves the session history unchanged, appending no assistant message,
while message-started and message-ended are still posted, first and
last, for that round. -/
theorem handleStreamModules_empty_trim (budget : Option Nat)
    (deltas : List Str)
    (h : trimStr (accumulate [] (consumedDeltas budget deltas)) = []) :
    (handleStreamModules budget deltas).2 = none ∧
    (handleStreamModules budget deltas).1.head? =
      some StreamEvent.startAssistantMessage ∧
    (handleStreamModules budget deltas).1.getLast? =
      some StreamEvent.endAssistantMessage := by
  refine ⟨?_, rfl, ?_⟩
  · show (if (trimStr (streamLoopModules budget deltas []).1).isEmpty then none
        else some (⟨dateNowId, Role.assistant,
          (streamLoopModules budget deltas []).1⟩ : Message)) = none
    rw [streamLoopModules_content, h]
    rfl
  · show (StreamEvent.startAssistantMessage ::
        ((streamLoopModules budget deltas []).2 ++
          [StreamEvent.endAssistantMessage])).getLast? =
      some StreamEvent.endAssistantMessage
    rw [← List.cons_append]
    exact List.getLast?_concat _

/-- Witness for C10 at a concrete input: one whitespace-only delta, no
cancellation; nothing is appended to history. -/
theorem handleStreamModules_empty_trim_witness :
    (handleStreamModules none [demoSpace]).2 = none ∧
    (handleStreamModules none [demoSpace]).1.getLast? =
      some StreamEvent.endAssistantMessage :=
  ⟨(handleStreamModules_empty_trim none [demoSpace] (by decide)).1,
   (handleStreamModules_empty_trim none [demoSpace] (by decide)).2.2⟩
